import Mathlib

/-!
Verification of `convert_value_string_to_milliunits` from `tr2ynab/tr2ynab.py`.

The Python source of the routine under study:

```
def convert_value_string_to_milliunits(value: str) -> int:
    value_cleaned = value.replace(',', '')
    if '.' in value_cleaned:
        whole, fraction = value_cleaned.split('.')
        fraction = (fraction + '000')[:3]  # Ensure three decimal places
    else:
        whole = value_cleaned
        fraction = '000'

    if whole.startswith('-'):
        return int(whole) * 1000 - int(fraction)
    return int(whole) * 1000 + int(fraction)
```

We embed it shallowly over `List Char`.  Exceptions are modelled with
`Except PyError Int`: the only exception this function can raise is the
builtin `ValueError`, either from `int()` on a non-numeric string or from
unpacking `value_cleaned.split('.')` into two variables when the cleaned
string holds more than one `'.'`.  Python's builtin `int(str)` is modelled
faithfully for ASCII input: surrounding whitespace is stripped, one
optional sign `+`/`-` is allowed, and the remaining characters must be
decimal digits, with single underscores permitted between digits.
-/

namespace Tr2Ynab

/-- The one kind of exception `convert_value_string_to_milliunits` can
raise: Python's builtin `ValueError`. -/
inductive PyError where
  | valueError
deriving DecidableEq

deriving instance DecidableEq for Except

/-- `value.replace(',', '')`: delete every comma. -/
def removeCommas (cs : List Char) : List Char := cs.filter (fun c => c ≠ ',')

/-- Python `str.split('.')` with no maxsplit: split at every dot;
`"".split('.') == [""]`, `"a.b.c".split('.') == ["a","b","c"]`. -/
def splitOnDot : List Char → List (List Char)
  | [] => [[]]
  | c :: rest =>
    if c = '.' then [] :: splitOnDot rest
    else
      match splitOnDot rest with
      | [] => [[c]]
      | h :: t => (c :: h) :: t

/-- The whitespace characters Python's `int()` strips around a numeric
string (ASCII subset of `str.strip()`). -/
def isPyWs (c : Char) : Bool :=
  c = ' ' || c = '\t' || c = '\n' || c = '\r' || c = '\x0b' || c = '\x0c'

/-- Strip leading and trailing whitespace, as `int()` does. -/
def stripWs (cs : List Char) : List Char :=
  ((cs.dropWhile isPyWs).reverse.dropWhile isPyWs).reverse

/-- The number denoted by a list of decimal digit characters. -/
def natOfDigits (cs : List Char) : Nat :=
  cs.foldl (fun a c => a * 10 + (c.toNat - 48)) 0

/-- Scan the digit body accepted by Python's `int()` after the optional
sign: decimal digits with single underscores allowed between digits.
Returns the digit characters with underscores removed, or `none` when a
character is neither a digit nor a legally placed underscore. -/
def pyDigitsAux : List Char → Option (List Char)
  | [] => some []
  | [c] => if c.isDigit then some [c] else none
  | c :: d :: rest =>
    if c.isDigit then (pyDigitsAux (d :: rest)).map (c :: ·)
    else if c = '_' then
      if d.isDigit then (pyDigitsAux rest).map (d :: ·) else none
    else none

/-- The digit body of a Python `int()` literal: nonempty, starts with a
digit (a leading underscore is rejected), underscores only between
digits. -/
def pyDigits (cs : List Char) : Option Nat :=
  match cs with
  | [] => none
  | c :: _ => if c.isDigit then (pyDigitsAux cs).map natOfDigits else none

/-- The optional sign `int()` accepts in front of the digit body: returns
whether the value is negated, together with the remaining characters. -/
def pySign : List Char → Bool × List Char
  | [] => (false, [])
  | c :: rest =>
    if c = '-' then (true, rest)
    else if c = '+' then (false, rest)
    else (false, c :: rest)

/-- Python's builtin `int(s)` on an ASCII string: strip whitespace, accept
one optional sign and a digit body, raise `ValueError` otherwise. -/
def pyInt (cs : List Char) : Except PyError Int :=
  let s := pySign (stripWs cs)
  match pyDigits s.2 with
  | some n => .ok (if s.1 then -(n : Int) else (n : Int))
  | none => .error .valueError

/-- `whole.startswith('-')` on the raw (unstripped) whole string. -/
def startsWithNeg : List Char → Bool
  | [] => false
  | c :: _ => c = '-'

/-- The final two lines of the Python function: parse `whole` and the
normalized `fraction` with `int()` (in that evaluation order), then
combine; subtract the fraction when `whole` starts with `'-'`, add it
otherwise. -/
def milliFromParts (whole fraction : List Char) : Except PyError Int :=
  match pyInt whole with
  | .error e => .error e
  | .ok w =>
    match pyInt fraction with
    | .error e => .error e
    | .ok f => .ok (if startsWithNeg whole then w * 1000 - f else w * 1000 + f)

/-- The body of the Python function after `value.replace(',', '')`:
split at `'.'` when present (unpacking into exactly two parts, else
`ValueError`), normalize the fraction with `(fraction + '000')[:3]`,
and combine the parts. -/
def convertCleaned (cleaned : List Char) : Except PyError Int :=
  if '.' ∈ cleaned then
    match splitOnDot cleaned with
    | [whole, fractionRaw] =>
      milliFromParts whole ((fractionRaw ++ ['0', '0', '0']).take 3)
    | _ => .error .valueError
  else
    milliFromParts cleaned ['0', '0', '0']

/-- `convert_value_string_to_milliunits` on a character list: first strip
all commas, then run the shared body. -/
def convertCore (value : List Char) : Except PyError Int :=
  convertCleaned (removeCommas value)

/-- The function under study, at `String` level, keeping the source's
name.  `.ok n` models a normal return of `n`; `.error .valueError` models
the `ValueError` Python raises from `int()` on a malformed field or from
unpacking a multi-dot split. -/
def convert_value_string_to_milliunits (value : String) : Except PyError Int :=
  convertCore value.data

example : convert_value_string_to_milliunits "1,234.56" = .ok 1234560 := by decide
example : convert_value_string_to_milliunits "1,234" = .ok 1234000 := by decide
example : convert_value_string_to_milliunits "0.99" = .ok 990 := by decide
example : convert_value_string_to_milliunits "100" = .ok 100000 := by decide
example : convert_value_string_to_milliunits "12,345,678.901" = .ok 12345678901 := by decide
example : convert_value_string_to_milliunits "-40.28" = .ok (-40280) := by decide
example : convert_value_string_to_milliunits "0" = .ok 0 := by decide
example : convert_value_string_to_milliunits "-0.01" = .ok (-10) := by decide
example : convert_value_string_to_milliunits "-1,234.5" = .ok (-1234500) := by decide
example : convert_value_string_to_milliunits "1.9999" = .ok 1999 := by decide
example : convert_value_string_to_milliunits ".5" = .error .valueError := by decide
example : convert_value_string_to_milliunits "-.5" = .error .valueError := by decide
example : convert_value_string_to_milliunits "1.-5" = .ok 950 := by decide
example : convert_value_string_to_milliunits "1.234a" = .ok 1234 := by decide
example : convert_value_string_to_milliunits "1.2.3" = .error .valueError := by decide
example : convert_value_string_to_milliunits "abc" = .error .valueError := by decide

/-! ## Lemmas about comma stripping -/

theorem mem_removeCommas {c : Char} {cs : List Char} :
    c ∈ removeCommas cs ↔ c ∈ cs ∧ c ≠ ',' := by
  simp [removeCommas]

theorem removeCommas_append (a b : List Char) :
    removeCommas (a ++ b) = removeCommas a ++ removeCommas b := by
  simp [removeCommas]

theorem removeCommas_eq_self {cs : List Char} (h : ∀ c ∈ cs, c ≠ ',') :
    removeCommas cs = cs := by
  rw [removeCommas, List.filter_eq_self]
  intro c hc
  simpa using h c hc

theorem removeCommas_idem (cs : List Char) :
    removeCommas (removeCommas cs) = removeCommas cs :=
  removeCommas_eq_self fun _ hc => (mem_removeCommas.mp hc).2

theorem removeCommas_cons (c : Char) (cs : List Char) :
    removeCommas (c :: cs) =
      if c = ',' then removeCommas cs else c :: removeCommas cs := by
  by_cases hc : c = ','
  · simp [removeCommas, List.filter_cons, hc]
  · simp [removeCommas, List.filter_cons, hc]

/-! ## Lemmas about the dot split -/

theorem splitOnDot_eq_single {cs : List Char} (h : '.' ∉ cs) :
    splitOnDot cs = [cs] := by
  induction cs with
  | nil => rfl
  | cons c rest ih =>
    have hc : ¬(c = '.') := fun he => h (he ▸ List.mem_cons_self c rest)
    have h' : '.' ∉ rest := fun hm => h (List.mem_cons_of_mem _ hm)
    simp [splitOnDot, hc, ih h']

theorem splitOnDot_append {a : List Char} (b : List Char) (h : '.' ∉ a) :
    splitOnDot (a ++ '.' :: b) = a :: splitOnDot b := by
  induction a with
  | nil => simp [splitOnDot]
  | cons c rest ih =>
    have hc : ¬(c = '.') := fun he => h (he ▸ List.mem_cons_self c rest)
    have h' : '.' ∉ rest := fun hm => h (List.mem_cons_of_mem _ hm)
    simp [splitOnDot, hc, ih h']

theorem splitOnDot_length (cs : List Char) :
    (splitOnDot cs).length = cs.count '.' + 1 := by
  induction cs with
  | nil => simp [splitOnDot]
  | cons c rest ih =>
    by_cases hc : c = '.'
    · subst hc
      simp [splitOnDot, List.count_cons, ih]
    · rcases hr : splitOnDot rest with _ | ⟨h1, t1⟩
      · rw [hr] at ih
        simp at ih
      · rw [hr] at ih
        simp only [List.length_cons] at ih
        simp [splitOnDot, hc, hr, List.count_cons]
        omega

theorem splitOnDot_ne_nil (cs : List Char) : splitOnDot cs ≠ [] := by
  intro h
  have := splitOnDot_length cs
  rw [h] at this
  simp at this

/-! ## Lemmas about whitespace stripping and digit parsing -/

theorem dropWhile_eq_self_of_forall {p : Char → Bool} {cs : List Char}
    (h : ∀ c ∈ cs, p c = false) : cs.dropWhile p = cs := by
  cases cs with
  | nil => rfl
  | cons c rest => simp [List.dropWhile_cons, h c (List.mem_cons_self c rest)]

theorem stripWs_eq_self {cs : List Char} (h : ∀ c ∈ cs, isPyWs c = false) :
    stripWs cs = cs := by
  unfold stripWs
  rw [dropWhile_eq_self_of_forall h,
    dropWhile_eq_self_of_forall fun c hc => h c (List.mem_reverse.mp hc),
    List.reverse_reverse]

theorem isDigit_ne {c : Char} (h : c.isDigit = true) {d : Char}
    (hd : d.isDigit = false) : c ≠ d := by
  intro he
  rw [he, hd] at h
  exact Bool.false_ne_true h

theorem not_pyWs_of_isDigit {c : Char} (h : c.isDigit = true) :
    isPyWs c = false := by
  have h1 : ¬(c = ' ') := isDigit_ne h (by decide)
  have h2 : ¬(c = '\t') := isDigit_ne h (by decide)
  have h3 : ¬(c = '\n') := isDigit_ne h (by decide)
  have h4 : ¬(c = '\r') := isDigit_ne h (by decide)
  have h5 : ¬(c = '\x0b') := isDigit_ne h (by decide)
  have h6 : ¬(c = '\x0c') := isDigit_ne h (by decide)
  simp [isPyWs, h1, h2, h3, h4, h5, h6]

theorem pyDigitsAux_digits {cs : List Char} (h : ∀ c ∈ cs, c.isDigit = true) :
    pyDigitsAux cs = some cs := by
  induction cs with
  | nil => rfl
  | cons c rest ih =>
    have hc := h c (List.mem_cons_self c rest)
    cases rest with
    | nil => simp [pyDigitsAux, hc]
    | cons d rest2 =>
      simp [pyDigitsAux, hc, ih fun e he => h e (List.mem_cons_of_mem _ he)]

theorem pyDigits_digits {cs : List Char} (hne : cs ≠ [])
    (h : ∀ c ∈ cs, c.isDigit = true) :
    pyDigits cs = some (natOfDigits cs) := by
  cases cs with
  | nil => exact absurd rfl hne
  | cons c rest =>
    simp [pyDigits, h c (List.mem_cons_self c rest), pyDigitsAux_digits h]

theorem pyInt_digits {cs : List Char} (hne : cs ≠ [])
    (h : ∀ c ∈ cs, c.isDigit = true) :
    pyInt cs = .ok (natOfDigits cs) := by
  have hs : stripWs cs = cs :=
    stripWs_eq_self fun c hc => not_pyWs_of_isDigit (h c hc)
  cases cs with
  | nil => exact absurd rfl hne
  | cons c rest =>
    have hc := h c (List.mem_cons_self c rest)
    have h1 : ¬(c = '-') := isDigit_ne hc (by decide)
    have h2 : ¬(c = '+') := isDigit_ne hc (by decide)
    simp [pyInt, hs, pySign, h1, h2, pyDigits_digits hne h]

theorem pyInt_neg_digits {cs : List Char} (hne : cs ≠ [])
    (h : ∀ c ∈ cs, c.isDigit = true) :
    pyInt ('-' :: cs) = .ok (-(natOfDigits cs : Int)) := by
  have hs : stripWs ('-' :: cs) = '-' :: cs := by
    apply stripWs_eq_self
    intro c hc
    rcases List.mem_cons.mp hc with h1 | h1
    · subst h1; decide
    · exact not_pyWs_of_isDigit (h c h1)
  simp [pyInt, hs, pySign, pyDigits_digits hne h]

/-! ## Evaluating `milliFromParts` on digit strings -/

theorem milliFromParts_pos {w f : List Char} (hwne : w ≠ [])
    (hw : ∀ c ∈ w, c.isDigit = true) (hfne : f ≠ [])
    (hf : ∀ c ∈ f, c.isDigit = true) :
    milliFromParts w f =
      .ok ((natOfDigits w : Int) * 1000 + (natOfDigits f : Int)) := by
  have hneg : startsWithNeg w = false := by
    cases w with
    | nil => rfl
    | cons c rest =>
      simp [startsWithNeg,
        isDigit_ne (hw c (List.mem_cons_self c rest)) (show ('-').isDigit = false by decide)]
  simp [milliFromParts, pyInt_digits hwne hw, pyInt_digits hfne hf, hneg]

theorem milliFromParts_neg {w f : List Char} (hwne : w ≠ [])
    (hw : ∀ c ∈ w, c.isDigit = true) (hfne : f ≠ [])
    (hf : ∀ c ∈ f, c.isDigit = true) :
    milliFromParts ('-' :: w) f =
      .ok (-(natOfDigits w : Int) * 1000 - (natOfDigits f : Int)) := by
  simp [milliFromParts, pyInt_neg_digits hwne hw, pyInt_digits hfne hf,
    startsWithNeg]

/-! ## The normalized fraction `(fraction + '000')[:3]` -/

theorem normFraction_digits {fd : List Char} (hf : ∀ c ∈ fd, c.isDigit = true) :
    ∀ c ∈ (fd ++ ['0', '0', '0']).take 3, c.isDigit = true := by
  intro c hc
  have hm : c ∈ fd ++ ['0', '0', '0'] := List.mem_of_mem_take hc
  rcases List.mem_append.mp hm with h1 | h1
  · exact hf c h1
  · have : c = '0' := by simpa using h1
    subst this
    decide

theorem normFraction_ne_nil (fd : List Char) :
    (fd ++ ['0', '0', '0']).take 3 ≠ [] := by
  have hlen : ((fd ++ ['0', '0', '0']).take 3).length = 3 := by
    rw [List.length_take, List.length_append]
    simp
  intro h
  rw [h] at hlen
  simp at hlen

theorem normFraction_pad {fd : List Char} (h : fd.length ≤ 3) :
    (fd ++ ['0', '0', '0']).take 3 =
      fd ++ List.replicate (3 - fd.length) '0' := by
  rcases fd with _ | ⟨a, _ | ⟨b, _ | ⟨c, _ | ⟨d, rest⟩⟩⟩⟩
  · rfl
  · rfl
  · rfl
  · rfl
  · simp at h

theorem normFraction_trunc {fd : List Char} (h : 3 ≤ fd.length) :
    (fd ++ ['0', '0', '0']).take 3 = fd.take 3 := by
  rw [List.take_append_eq_append_take]
  have : 3 - fd.length = 0 := by omega
  rw [this]
  simp

/-! ## Evaluating `convertCleaned` on the two structural shapes -/

theorem convertCleaned_with_dot {a : List Char} (b : List Char)
    (ha : '.' ∉ a) (hb : '.' ∉ b) :
    convertCleaned (a ++ '.' :: b) =
      milliFromParts a ((b ++ ['0', '0', '0']).take 3) := by
  have hmem : '.' ∈ a ++ '.' :: b :=
    List.mem_append.mpr (Or.inr (List.mem_cons_self _ _))
  rw [convertCleaned, if_pos hmem, splitOnDot_append b ha,
    splitOnDot_eq_single hb]

theorem convertCleaned_no_dot {a : List Char} (ha : '.' ∉ a) :
    convertCleaned a = milliFromParts a ['0', '0', '0'] := by
  rw [convertCleaned, if_neg ha]

/-! ## Well-formed inputs, assembled from their components

`buildAmount neg w fd hasDot` assembles an amount string from an optional
leading minus sign, a whole-part string `w` (digits, possibly with comma
separators), and, when `hasDot` is set, a dot followed by the fractional
digit string `fd`.  Every string of the decimal-amount grammar in the
specification arises this way. -/

def buildAmount (neg : Bool) (w fd : List Char) (hasDot : Bool) : List Char :=
  (if neg then ['-'] else []) ++ w ++ (if hasDot then '.' :: fd else [])

theorem buildAmount_pos_nodot (w fd : List Char) :
    buildAmount false w fd false = w := by
  simp [buildAmount]

theorem buildAmount_neg_nodot (w fd : List Char) :
    buildAmount true w fd false = '-' :: w := by
  simp [buildAmount]

theorem buildAmount_pos_dot (w fd : List Char) :
    buildAmount false w fd true = w ++ '.' :: fd := by
  simp [buildAmount]

theorem buildAmount_neg_dot (w fd : List Char) :
    buildAmount true w fd true = '-' :: (w ++ '.' :: fd) := by
  simp [buildAmount]

theorem removeCommas_cons_of_ne {c : Char} (h : c ≠ ',') (cs : List Char) :
    removeCommas (c :: cs) = c :: removeCommas cs := by
  rw [removeCommas_cons, if_neg h]

/-- Central evaluation lemma: on any assembled amount whose whole part
holds at least one digit (plus optional commas) and whose fraction part
holds only digits, the function returns exactly
`sign * (whole * 1000 + normalizedFraction)` where the normalized
fraction is `(fd ++ "000").take 3`. -/
theorem convertCore_build (neg : Bool) (w fd : List Char) (hasDot : Bool)
    (hw : ∀ c ∈ w, c.isDigit = true ∨ c = ',')
    (hw2 : removeCommas w ≠ [])
    (hf : ∀ c ∈ fd, c.isDigit = true)
    (hnd : hasDot = false → fd = []) :
    convertCore (buildAmount neg w fd hasDot) =
      .ok ((if neg then (-1 : Int) else 1) *
        ((natOfDigits (removeCommas w) : Int) * 1000 +
          (natOfDigits ((fd ++ ['0', '0', '0']).take 3) : Int))) := by
  have hdwd : ∀ c ∈ removeCommas w, c.isDigit = true := by
    intro c hc
    rcases mem_removeCommas.mp hc with ⟨hcw, hcne⟩
    rcases hw c hcw with h1 | h1
    · exact h1
    · exact absurd h1 hcne
  have hdot_dw : '.' ∉ removeCommas w := fun hm =>
    absurd (hdwd '.' hm) (by decide)
  have hfd_ne_comma : ∀ c ∈ fd, c ≠ ',' := fun c hc =>
    isDigit_ne (hf c hc) (by decide)
  have hrc_fd : removeCommas fd = fd := removeCommas_eq_self hfd_ne_comma
  have hdot_neg_dw : '.' ∉ '-' :: removeCommas w := by
    intro hm
    rcases List.mem_cons.mp hm with h1 | h1
    · exact absurd h1 (by decide)
    · exact hdot_dw h1
  cases hasDot with
  | false =>
    rw [hnd rfl]
    have h000 : ((([] : List Char) ++ ['0', '0', '0']).take 3) = ['0', '0', '0'] := rfl
    have hz : natOfDigits ['0', '0', '0'] = 0 := by decide
    cases neg with
    | false =>
      unfold convertCore
      rw [buildAmount_pos_nodot, h000,
        convertCleaned_no_dot hdot_dw,
        milliFromParts_pos hw2 hdwd (by decide) (by decide), hz]
      congr 1
      push_cast
      ring
    | true =>
      unfold convertCore
      rw [buildAmount_neg_nodot, h000,
        removeCommas_cons_of_ne (by decide) w,
        convertCleaned_no_dot hdot_neg_dw,
        milliFromParts_neg hw2 hdwd (by decide) (by decide), hz,
        show (if (true : Bool) = true then (-1 : Int) else 1) = -1 from rfl]
      congr 1
      push_cast
      ring
  | true =>
    have hnf_digits := normFraction_digits hf
    have hnf_ne := normFraction_ne_nil fd
    have hdot_fd : '.' ∉ fd := fun hm => absurd (hf '.' hm) (by decide)
    cases neg with
    | false =>
      unfold convertCore
      rw [buildAmount_pos_dot, removeCommas_append,
        removeCommas_cons_of_ne (by decide) fd, hrc_fd,
        convertCleaned_with_dot fd hdot_dw hdot_fd,
        milliFromParts_pos hw2 hdwd hnf_ne hnf_digits]
      congr 1
      push_cast
      ring
    | true =>
      unfold convertCore
      rw [buildAmount_neg_dot,
        removeCommas_cons_of_ne (by decide) (w ++ '.' :: fd),
        removeCommas_append,
        removeCommas_cons_of_ne (by decide) fd, hrc_fd,
        ← List.cons_append,
        convertCleaned_with_dot fd hdot_neg_dw hdot_fd,
        milliFromParts_neg hw2 hdwd hnf_ne hnf_digits,
        show (if (true : Bool) = true then (-1 : Int) else 1) = -1 from rfl]
      congr 1
      ring

/-! ## Claim theorems -/

/-- C1: for every valid decimal-amount string — optional leading minus,
whole part of digits with optional comma separators, optional dot with at
most three fractional digits — `convert_value_string_to_milliunits`
returns `sigma * (|whole| * 1000 + normalizedFraction)`, the normalized
fraction being the fractional digit string right-padded with zeros to
three digits; in particular the four literal scenarios hold. -/
theorem convert_valid_amount_formula :
    (∀ (neg : Bool) (w fd : List Char) (hasDot : Bool),
      (∀ c ∈ w, c.isDigit = true ∨ c = ',') →
      removeCommas w ≠ [] →
      (∀ c ∈ fd, c.isDigit = true) →
      fd.length ≤ 3 →
      (hasDot = false → fd = []) →
      convert_value_string_to_milliunits (String.mk (buildAmount neg w fd hasDot)) =
        .ok ((if neg then (-1 : Int) else 1) *
          ((natOfDigits (removeCommas w) : Int) * 1000 +
            (natOfDigits (fd ++ List.replicate (3 - fd.length) '0') : Int)))) ∧
    convert_value_string_to_milliunits "1,234.56" = .ok 1234560 ∧
    convert_value_string_to_milliunits "1,234" = .ok 1234000 ∧
    convert_value_string_to_milliunits "12,345,678.901" = .ok 12345678901 ∧
    convert_value_string_to_milliunits "0" = .ok 0 := by
  refine ⟨?_, by decide, by decide, by decide, by decide⟩
  intro neg w fd hasDot hw hw2 hf hlen hnd
  rw [← normFraction_pad hlen]
  exact convertCore_build neg w fd hasDot hw hw2 hf hnd

/-- Witness for C1 at the input `"1,234.56"`
(`buildAmount false "1,234" "56" true`). -/
theorem convert_valid_amount_formula_witness :
    (∀ c ∈ (['1', ',', '2', '3', '4'] : List Char), c.isDigit = true ∨ c = ',') ∧
    removeCommas ['1', ',', '2', '3', '4'] ≠ [] ∧
    (∀ c ∈ (['5', '6'] : List Char), c.isDigit = true) ∧
    (['5', '6'] : List Char).length ≤ 3 ∧
    convert_value_string_to_milliunits
        (String.mk (buildAmount false ['1', ',', '2', '3', '4'] ['5', '6'] true)) =
      .ok ((if false then (-1 : Int) else 1) *
        ((natOfDigits (removeCommas ['1', ',', '2', '3', '4']) : Int) * 1000 +
          (natOfDigits (['5', '6'] ++
            List.replicate (3 - (['5', '6'] : List Char).length) '0') : Int))) :=
  ⟨by decide, by decide, by decide, by decide,
    convert_valid_amount_formula.1 false ['1', ',', '2', '3', '4'] ['5', '6'] true
      (by decide) (by decide) (by decide) (by decide) (by decide)⟩

/-- C3: when the whole part begins with a minus sign (including a `-0`
whole part), the result is `W * 1000 - F`, with `W` the signed parsed
whole and `F` the non-negative normalized fraction, and otherwise it is
`W * 1000 + F`; with the three literal sign scenarios. -/
theorem convert_sign_handling :
    (∀ (w fd : List Char) (hasDot : Bool),
      (∀ c ∈ w, c.isDigit = true ∨ c = ',') →
      removeCommas w ≠ [] →
      (∀ c ∈ fd, c.isDigit = true) →
      (hasDot = false → fd = []) →
      convert_value_string_to_milliunits (String.mk (buildAmount true w fd hasDot)) =
        .ok (-(natOfDigits (removeCommas w) : Int) * 1000 -
          (natOfDigits ((fd ++ ['0', '0', '0']).take 3) : Int)) ∧
      convert_value_string_to_milliunits (String.mk (buildAmount false w fd hasDot)) =
        .ok ((natOfDigits (removeCommas w) : Int) * 1000 +
          (natOfDigits ((fd ++ ['0', '0', '0']).take 3) : Int))) ∧
    convert_value_string_to_milliunits "-40.28" = .ok (-40280) ∧
    convert_value_string_to_milliunits "-0.01" = .ok (-10) ∧
    convert_value_string_to_milliunits "-1,234.5" = .ok (-1234500) := by
  refine ⟨?_, by decide, by decide, by decide⟩
  intro w fd hasDot hw hw2 hf hnd
  constructor
  · show convertCore (buildAmount true w fd hasDot) = _
    rw [convertCore_build true w fd hasDot hw hw2 hf hnd,
      show (if (true : Bool) = true then (-1 : Int) else 1) = -1 from rfl]
    congr 1
    ring
  · show convertCore (buildAmount false w fd hasDot) = _
    rw [convertCore_build false w fd hasDot hw hw2 hf hnd,
      show (if (false : Bool) = true then (-1 : Int) else 1) = 1 from rfl]
    congr 1
    ring

/-- Witness for C3 at the inputs `"-0.01"` and `"0.01"`. -/
theorem convert_sign_handling_witness :
    (∀ c ∈ (['0'] : List Char), c.isDigit = true ∨ c = ',') ∧
    removeCommas ['0'] ≠ [] ∧
    (∀ c ∈ (['0', '1'] : List Char), c.isDigit = true) ∧
    (convert_value_string_to_milliunits
        (String.mk (buildAmount true ['0'] ['0', '1'] true)) =
      .ok (-(natOfDigits (removeCommas ['0']) : Int) * 1000 -
        (natOfDigits (((['0', '1'] : List Char) ++ ['0', '0', '0']).take 3) : Int)) ∧
    convert_value_string_to_milliunits
        (String.mk (buildAmount false ['0'] ['0', '1'] true)) =
      .ok ((natOfDigits (removeCommas ['0']) : Int) * 1000 +
        (natOfDigits (((['0', '1'] : List Char) ++ ['0', '0', '0']).take 3) : Int))) :=
  ⟨by decide, by decide, by decide,
    convert_sign_handling.1 ['0'] ['0', '1'] true
      (by decide) (by decide) (by decide) (by decide)⟩

/-- C4: the fractional part is normalized to exactly three digits by
right-padding with `'0'` when at most three digits long and by truncating
(not rounding) to its first three digits when at least three digits long;
with the literal scenarios `1.9999 -> 1999`, `0.99 -> 990`,
`100 -> 100000`. -/
theorem convert_fraction_normalization :
    (∀ (neg : Bool) (w fd : List Char),
      (∀ c ∈ w, c.isDigit = true ∨ c = ',') →
      removeCommas w ≠ [] →
      (∀ c ∈ fd, c.isDigit = true) →
      (fd.length ≤ 3 →
        convert_value_string_to_milliunits (String.mk (buildAmount neg w fd true)) =
          .ok ((if neg then (-1 : Int) else 1) *
            ((natOfDigits (removeCommas w) : Int) * 1000 +
              (natOfDigits (fd ++ List.replicate (3 - fd.length) '0') : Int)))) ∧
      (3 ≤ fd.length →
        convert_value_string_to_milliunits (String.mk (buildAmount neg w fd true)) =
          .ok ((if neg then (-1 : Int) else 1) *
            ((natOfDigits (removeCommas w) : Int) * 1000 +
              (natOfDigits (fd.take 3) : Int))))) ∧
    convert_value_string_to_milliunits "1.9999" = .ok 1999 ∧
    convert_value_string_to_milliunits "0.99" = .ok 990 ∧
    convert_value_string_to_milliunits "100" = .ok 100000 := by
  refine ⟨?_, by decide, by decide, by decide⟩
  intro neg w fd hw hw2 hf
  constructor
  · intro hlen
    rw [← normFraction_pad hlen]
    exact convertCore_build neg w fd true hw hw2 hf fun h => Bool.noConfusion h
  · intro hlen
    rw [← normFraction_trunc hlen]
    exact convertCore_build neg w fd true hw hw2 hf fun h => Bool.noConfusion h

/-- Witness for C4 at the input `"1.9999"` (truncation side). -/
theorem convert_fraction_normalization_witness :
    (∀ c ∈ (['1'] : List Char), c.isDigit = true ∨ c = ',') ∧
    removeCommas ['1'] ≠ [] ∧
    (∀ c ∈ (['9', '9', '9', '9'] : List Char), c.isDigit = true) ∧
    3 ≤ (['9', '9', '9', '9'] : List Char).length ∧
    convert_value_string_to_milliunits
        (String.mk (buildAmount false ['1'] ['9', '9', '9', '9'] true)) =
      .ok ((if false then (-1 : Int) else 1) *
        ((natOfDigits (removeCommas ['1']) : Int) * 1000 +
          (natOfDigits ((['9', '9', '9', '9'] : List Char).take 3) : Int))) :=
  ⟨by decide, by decide, by decide, by decide,
    ((convert_fraction_normalization.1 false ['1'] ['9', '9', '9', '9']
      (by decide) (by decide) (by decide)).2 (by decide))⟩

/-- C9: the returned integer is always the exact mathematical value
`sigma * (whole * 1000 + fraction)` computed in unbounded integer
arithmetic, whatever the number of digits in the whole part — there is no
fixed-width wrap-around; in particular a thirty-digit amount converts
exactly, to a value far beyond the 64-bit range. -/
theorem convert_exact_no_overflow :
    (∀ (neg : Bool) (w fd : List Char) (hasDot : Bool),
      (∀ c ∈ w, c.isDigit = true ∨ c = ',') →
      removeCommas w ≠ [] →
      (∀ c ∈ fd, c.isDigit = true) →
      (hasDot = false → fd = []) →
      convert_value_string_to_milliunits (String.mk (buildAmount neg w fd hasDot)) =
        .ok ((if neg then (-1 : Int) else 1) *
          ((natOfDigits (removeCommas w) : Int) * 1000 +
            (natOfDigits ((fd ++ ['0', '0', '0']).take 3) : Int)))) ∧
    convert_value_string_to_milliunits "123,456,789,012,345,678,901,234,567,890.999" =
      .ok 123456789012345678901234567890999 ∧
    (2 : Int) ^ 64 < 123456789012345678901234567890999 := by
  refine ⟨?_, by decide, by norm_num⟩
  intro neg w fd hasDot hw hw2 hf hnd
  exact convertCore_build neg w fd hasDot hw hw2 hf hnd

/-- Witness for C9 at a thirteen-digit whole part. -/
theorem convert_exact_no_overflow_witness :
    (∀ c ∈ (['9', '9', '9', '9', '9', '9', '9', '9', '9', '9', '9', '9', '9'] : List Char),
      c.isDigit = true ∨ c = ',') ∧
    removeCommas ['9', '9', '9', '9', '9', '9', '9', '9', '9', '9', '9', '9', '9'] ≠ [] ∧
    convert_value_string_to_milliunits
        (String.mk (buildAmount false
          ['9', '9', '9', '9', '9', '9', '9', '9', '9', '9', '9', '9', '9'] [] false)) =
      .ok ((if false then (-1 : Int) else 1) *
        ((natOfDigits (removeCommas
            ['9', '9', '9', '9', '9', '9', '9', '9', '9', '9', '9', '9', '9']) : Int) * 1000 +
          (natOfDigits ((([] : List Char) ++ ['0', '0', '0']).take 3) : Int))) :=
  ⟨by decide, by decide,
    convert_exact_no_overflow.1 false
      ['9', '9', '9', '9', '9', '9', '9', '9', '9', '9', '9', '9', '9'] [] false
      (by decide) (by decide) (by decide) (by decide)⟩

/-! ## Error paths -/

theorem pyInt_nil : pyInt [] = .error .valueError := by decide

theorem pyInt_dash : pyInt ['-'] = .error .valueError := by decide

theorem milliFromParts_error_whole {whole : List Char}
    (h : pyInt whole = .error .valueError) (f : List Char) :
    milliFromParts whole f = .error .valueError := by
  rw [milliFromParts, h]

theorem splitOnDot_cons_dot (cs : List Char) :
    splitOnDot ('.' :: cs) = [] :: splitOnDot cs := by
  simp [splitOnDot]

/-- C2 (amended): the code defines no `FormatError`; when the cleaned
string contains more than one `'.'`, the two-variable unpacking of
`split('.')` raises the builtin `ValueError`, so the function never
returns a number for a multi-dot input.  (The other malformed classes of
the original claim are refuted by `convert_malformed_counterexample`.) -/
theorem convert_multidot_valueError :
    ∀ s : String, 2 ≤ (removeCommas s.data).count '.' →
      convert_value_string_to_milliunits s = .error .valueError := by
  intro s h
  show convertCleaned (removeCommas s.data) = _
  set cleaned := removeCommas s.data with hcl
  have hmem : '.' ∈ cleaned := List.count_pos_iff.mp (by omega)
  obtain ⟨p1, p2, p3, t, hp⟩ : ∃ p1 p2 p3 t,
      splitOnDot cleaned = p1 :: p2 :: p3 :: t := by
    have hlen := splitOnDot_length cleaned
    rcases hsp : splitOnDot cleaned with _ | ⟨a, _ | ⟨b, _ | ⟨c, t⟩⟩⟩
    · rw [hsp] at hlen
      simp at hlen
    · rw [hsp] at hlen
      simp at hlen
      omega
    · rw [hsp] at hlen
      simp at hlen
      omega
    · exact ⟨a, b, c, t, rfl⟩
  unfold convertCleaned
  rw [if_pos hmem, hp]

/-- C2 counterexample: `"1.-5"` holds a `'-'` outside the leading
position and `"1.234a"` holds the letter `'a'`, both outside `[0-9.-]` or
misplaced, yet the function returns plausible numbers (950 and 1234)
instead of raising an error: the fraction field is parsed by `int()`
after truncation, which accepts a signed fraction and discards characters
beyond the third fractional digit. -/
theorem convert_malformed_counterexample :
    convert_value_string_to_milliunits "1.-5" = .ok 950 ∧
    convert_value_string_to_milliunits "1.234a" = .ok 1234 ∧
    ¬convert_value_string_to_milliunits "1.-5" = .error .valueError ∧
    ¬convert_value_string_to_milliunits "1.234a" = .error .valueError := by
  decide

/-- Witness for the amended C2 at the input `"1.2.3"`. -/
theorem convert_multidot_valueError_witness :
    2 ≤ (removeCommas ("1.2.3" : String).data).count '.' ∧
    convert_value_string_to_milliunits "1.2.3" = .error .valueError :=
  ⟨by decide, convert_multidot_valueError "1.2.3" (by decide)⟩

/-- C5 (amended): an empty whole part is NOT treated as zero magnitude:
for any input starting with `'.'` (empty whole part) or with `"-."`
(whole part a lone minus), `int()` fails on the whole field — or the
multi-dot unpacking fails — so the function raises `ValueError` instead
of returning a value. -/
theorem convert_empty_whole_valueError :
    ∀ s : List Char,
      convert_value_string_to_milliunits (String.mk ('.' :: s)) =
        .error .valueError ∧
      convert_value_string_to_milliunits (String.mk ('-' :: '.' :: s)) =
        .error .valueError := by
  intro s
  constructor
  · show convertCleaned (removeCommas ('.' :: s)) = _
    rw [removeCommas_cons_of_ne (by decide) s]
    have hmem : '.' ∈ '.' :: removeCommas s := List.mem_cons_self _ _
    unfold convertCleaned
    rw [if_pos hmem, splitOnDot_cons_dot]
    rcases hsp : splitOnDot (removeCommas s) with _ | ⟨x, _ | ⟨y, t⟩⟩
    · exact absurd hsp (splitOnDot_ne_nil _)
    · exact milliFromParts_error_whole pyInt_nil _
    · rfl
  · show convertCleaned (removeCommas ('-' :: '.' :: s)) = _
    rw [removeCommas_cons_of_ne (by decide) ('.' :: s),
      removeCommas_cons_of_ne (by decide) s]
    have hmem : '.' ∈ '-' :: '.' :: removeCommas s :=
      List.mem_cons_of_mem _ (List.mem_cons_self _ _)
    have hsplit : splitOnDot ('-' :: '.' :: removeCommas s) =
        ['-'] :: splitOnDot (removeCommas s) := by
      rw [show ('-' :: '.' :: removeCommas s) = ['-'] ++ '.' :: removeCommas s from rfl,
        splitOnDot_append (removeCommas s) (by decide)]
    unfold convertCleaned
    rw [if_pos hmem, hsplit]
    rcases hsp : splitOnDot (removeCommas s) with _ | ⟨x, _ | ⟨y, t⟩⟩
    · exact absurd hsp (splitOnDot_ne_nil _)
    · exact milliFromParts_error_whole pyInt_dash _
    · rfl

/-- C5 counterexample: the claim asserts `convert(".5") = 500` and
`convert("-.5") = -500` rather than failing; in fact both inputs raise
`ValueError` (from `int("")` and `int("-")` respectively). -/
theorem convert_empty_whole_counterexample :
    convert_value_string_to_milliunits ".5" = .error .valueError ∧
    convert_value_string_to_milliunits "-.5" = .error .valueError ∧
    ¬convert_value_string_to_milliunits ".5" = .ok 500 ∧
    ¬convert_value_string_to_milliunits "-.5" = .ok (-500) := by
  decide

/-! ## Comma insertion -/

/-- `CommaInsertion s t` holds when `t` arises from `s` by inserting
extra `','` characters at arbitrary positions (in particular at any valid
thousands-grouping position). -/
inductive CommaInsertion : List Char → List Char → Prop
  | nil : CommaInsertion [] []
  | keep (c : Char) {s t : List Char} :
      CommaInsertion s t → CommaInsertion (c :: s) (c :: t)
  | extra {s t : List Char} :
      CommaInsertion s t → CommaInsertion s (',' :: t)

theorem removeCommas_of_commaInsertion {s t : List Char}
    (h : CommaInsertion s t) : removeCommas s = removeCommas t := by
  induction h with
  | nil => rfl
  | keep c _ ih => rw [removeCommas_cons, removeCommas_cons, ih]
  | extra _ ih => rw [ih, removeCommas_cons, if_pos rfl]

/-- C6: inserting extra commas between the characters of an amount string
(in particular at valid thousands-grouping positions) never changes the
result, valid input or not, because the very first step deletes every
comma. -/
theorem convert_comma_insertion_invariant :
    ∀ s t : List Char, CommaInsertion s t →
      convert_value_string_to_milliunits (String.mk s) =
        convert_value_string_to_milliunits (String.mk t) := by
  intro s t h
  show convertCleaned (removeCommas s) = convertCleaned (removeCommas t)
  rw [removeCommas_of_commaInsertion h]

/-- Witness for C6: inserting a thousands-grouping comma into `"1234.5"`
gives `"1,234.5"` with the same result. -/
theorem convert_comma_insertion_invariant_witness :
    CommaInsertion ['1', '2', '3', '4', '.', '5']
      ['1', ',', '2', '3', '4', '.', '5'] ∧
    convert_value_string_to_milliunits (String.mk ['1', '2', '3', '4', '.', '5']) =
      convert_value_string_to_milliunits
        (String.mk ['1', ',', '2', '3', '4', '.', '5']) :=
  have hins : CommaInsertion ['1', '2', '3', '4', '.', '5']
      ['1', ',', '2', '3', '4', '.', '5'] :=
    .keep '1' (.extra (.keep '2' (.keep '3' (.keep '4' (.keep '.' (.keep '5' .nil))))))
  ⟨hins, convert_comma_insertion_invariant _ _ hins⟩

/-- C7: the embedding of `convert_value_string_to_milliunits` is a total
function of the input string alone — the Python body reads only its
`value` parameter and locals, no ambient state — so two invocations on
equal inputs return equal results. -/
theorem convert_deterministic :
    ∀ s t : String, s = t →
      convert_value_string_to_milliunits s =
        convert_value_string_to_milliunits t := by
  intro s t h
  rw [h]

/-- Witness for C7 at the input `"1,234.56"`. -/
theorem convert_deterministic_witness :
    ("1,234.56" : String) = "1,234.56" ∧
    convert_value_string_to_milliunits "1,234.56" =
      convert_value_string_to_milliunits "1,234.56" :=
  ⟨rfl, convert_deterministic "1,234.56" "1,234.56" rfl⟩

/-- C8: comma removal is unconditional — any input behaves exactly like
its comma-free form, whether or not the comma placement is a valid
thousands grouping; e.g. `"1,2,3.4,5"` converts like `"123.45"` to
123450. -/
theorem convert_comma_removal_unconditional :
    (∀ s : String, convert_value_string_to_milliunits s =
      convert_value_string_to_milliunits (String.mk (removeCommas s.data))) ∧
    convert_value_string_to_milliunits "1,2,3.4,5" = .ok 123450 ∧
    convert_value_string_to_milliunits "123.45" = .ok 123450 := by
  refine ⟨?_, by decide, by decide⟩
  intro s
  show convertCleaned (removeCommas s.data) =
    convertCleaned (removeCommas (removeCommas s.data))
  rw [removeCommas_idem]

theorem convertCore_append_dot {cs : List Char} (h : '.' ∉ cs) :
    convertCore (cs ++ ['.']) = convertCore cs := by
  have hd : '.' ∉ removeCommas cs := fun hm => h (mem_removeCommas.mp hm).1
  unfold convertCore
  rw [removeCommas_append,
    show removeCommas ['.'] = ['.'] from rfl,
    convertCleaned_with_dot [] hd (by simp),
    convertCleaned_no_dot hd]
  rfl

/-- C10: appending a bare trailing decimal point to a dot-free amount
string (optional leading minus, digits, optional commas) does not change
the result: the empty fraction is normalized to `"000"`, exactly the
fraction used when no dot is present. -/
theorem convert_trailing_dot :
    ∀ (neg : Bool) (w : List Char),
      (∀ c ∈ w, c.isDigit = true ∨ c = ',') →
      convert_value_string_to_milliunits
          (String.mk (buildAmount neg w [] false ++ ['.'])) =
        convert_value_string_to_milliunits
          (String.mk (buildAmount neg w [] false)) := by
  intro neg w hw
  show convertCore (buildAmount neg w [] false ++ ['.']) =
    convertCore (buildAmount neg w [] false)
  apply convertCore_append_dot
  have hwdot : '.' ∉ w := by
    intro hm
    rcases hw '.' hm with h1 | h1 <;> exact absurd h1 (by decide)
  cases neg with
  | false =>
    rw [buildAmount_pos_nodot]
    exact hwdot
  | true =>
    rw [buildAmount_neg_nodot]
    intro hm
    rcases List.mem_cons.mp hm with h1 | h1
    · exact absurd h1 (by decide)
    · exact hwdot h1

/-- Witness for C10 at the input `"1,234"` (so `"1,234."` converts the
same way). -/
theorem convert_trailing_dot_witness :
    (∀ c ∈ (['1', ',', '2', '3', '4'] : List Char), c.isDigit = true ∨ c = ',') ∧
    convert_value_string_to_milliunits
        (String.mk (buildAmount false ['1', ',', '2', '3', '4'] [] false ++ ['.'])) =
      convert_value_string_to_milliunits
        (String.mk (buildAmount false ['1', ',', '2', '3', '4'] [] false)) :=
  ⟨by decide, convert_trailing_dot false ['1', ',', '2', '3', '4'] (by decide)⟩

end Tr2Ynab
